import Mathlib

/-!
Shallow embedding of the three CSV-processing scripts of this repository
(`scripts/convert_thrust_lookup.py`, `scripts/process_efficiency.py`,
`scripts/process_thrust_map.py`).  Numeric cells are modelled by exact
rationals `ℚ`; a missing cell (pandas `NaN`) is `Option.none`.  A pandas
`DataFrame` is an association list from column names to cell columns, and
each script's `main` is a pure function from the parsed input table and the
command-line arguments to the list of CSV files it writes (`Except` when the
script raises or exits with an error before writing anything).
-/

/-- Arithmetic mean of a list of rationals, as computed by `pandas.mean`
on a group (sum divided by count). -/
def meanQ (l : List ℚ) : ℚ := l.sum / (l.length : ℚ)

/-- Comparison of `(key, value)` pairs by key; the order used when a frame
is sorted on its key column. -/
def keyLE (p q : ℚ × ℚ) : Prop := p.1 ≤ q.1

instance : DecidableRel keyLE := fun p q => inferInstanceAs (Decidable (p.1 ≤ q.1))

/-- Stable sort of `(key, value)` pairs by key: the `np.argsort(cmd)`
reordering step of `invert_cmd_vs_force_to_force_vs_cmd`. -/
def sortByKey (ps : List (ℚ × ℚ)) : List (ℚ × ℚ) := List.insertionSort keyLE ps

/-- The group keys produced by `pandas.groupby` on the key column of a list
of `(key, value)` pairs: the distinct key values in ascending order. -/
def groupKeys (ps : List (ℚ × ℚ)) : List ℚ :=
  List.insertionSort (· ≤ ·) (ps.map Prod.fst).dedup

/-- `groupby(key).mean()` on `(key, value)` pairs: one row per distinct key,
keys ascending, each paired with the mean of the values sharing that key. -/
def groupMeans (ps : List (ℚ × ℚ)) : List (ℚ × ℚ) :=
  (groupKeys ps).map fun k =>
    (k, meanQ ((ps.filter fun p => p.1 = k).map Prod.snd))

/-- The raveled `meshgrid(voltages, forces, indexing="ij")` pair grid: the
`(voltage, force)` pairs in voltage-major (row-major) order, of length
`len(voltages) * len(forces)`. -/
def meltMesh (voltages forces : List ℚ) : List (ℚ × ℚ) :=
  (voltages.map fun v => forces.map fun f => (v, f)).flatten

/-- `convert_thrust_lookup.melt_grid`: `meshgrid(voltages, forces,
indexing="ij")` followed by `ravel`, building the long-form rows
`(voltage_V, force_N, cmd)`; the `pd.DataFrame` constructor raises
`ValueError` when the raveled `cmd` grid and the raveled mesh have different
lengths, before anything is written. -/
def melt_grid (voltages forces : List ℚ) (Z : List (List ℚ)) :
    Except String (List (ℚ × ℚ × ℚ)) :=
  if (Z.map List.length).sum = voltages.length * forces.length then
    Except.ok (((meltMesh voltages forces).zip Z.flatten).map fun p => (p.1.1, p.1.2, p.2))
  else Except.error "All arrays must be of the same length"

/-- The long-form rows of a successful `melt_grid` (`[]` when it raised). -/
def rowsOf : Except String (List (ℚ × ℚ × ℚ)) → List (ℚ × ℚ × ℚ)
  | Except.ok r => r
  | Except.error _ => []

/-- First index of the least element of `|x - t|` over the list, starting the
scan with value `bv` at index `best`: the tail recursion of `np.argmin`. -/
def argminAbsAux (t : ℚ) : List ℚ → ℕ → ℕ → ℚ → ℕ
  | [], _, best, _ => best
  | x :: xs, i, best, bv =>
    if |x - t| < bv then argminAbsAux t xs (i + 1) i |x - t|
    else argminAbsAux t xs (i + 1) best bv

/-- `np.argmin(np.abs(voltages - target))`: first index minimising the
distance to `t` (`0` on the empty array). -/
def argminAbs (l : List ℚ) (t : ℚ) : ℕ :=
  match l with
  | [] => 0
  | x :: xs => argminAbsAux t xs 1 0 |x - t|

/-- `convert_thrust_lookup.slice_voltage_curve`: select the row of `Z` at the
middle voltage (no target) or at the voltage closest to the target, returning
the selected voltage, the force axis, and that `cmd` row; the `IndexError`
it raises on an empty voltage axis is modelled at the `main` level, where it
occurs after the first output file was already written. -/
def slice_voltage_curve (voltages forces : List ℚ) (Z : List (List ℚ))
    (target : Option ℚ) : ℚ × List ℚ × List ℚ :=
  let idx := match target with
    | none => voltages.length / 2
    | some t => argminAbs voltages t
  (voltages.getD idx 0, forces, Z.getD idx [])

/-- `convert_thrust_lookup.invert_cmd_vs_force_to_force_vs_cmd`: sort the
`(cmd, force)` pairs by `cmd` (`np.argsort`), then
`groupby("cmd").mean()` to average duplicate `cmd` entries; returns the
column pair `(cmd, thrust_N)` of the resulting frame. -/
def invert_cmd_vs_force_to_force_vs_cmd (cmd force : List ℚ) : List ℚ × List ℚ :=
  let g := groupMeans (sortByKey (cmd.zip force))
  (g.map Prod.fst, g.map Prod.snd)

/-- `np.min` of a nonempty list (`0` on the empty list, where numpy raises). -/
def listMinQ : List ℚ → ℚ
  | [] => 0
  | x :: xs => xs.foldl min x

/-- `np.max` of a nonempty list (`0` on the empty list, where numpy raises). -/
def listMaxQ : List ℚ → ℚ
  | [] => 0
  | x :: xs => xs.foldl max x

/-- The literal `1e-9` of `span = max(cmax - cmin, 1e-9)`. -/
def epsSpan : ℚ := 1 / 1000000000

/-- The normalisation span `max(cmax - cmin, 1e-9)` of
`convert_thrust_lookup.main`, where `cmin`/`cmax` default to the min/max of
the 1D `cmd` curve when `--min-cmd`/`--max-cmd` are not given. -/
def spanOf (cmd1d : List ℚ) (minCmd maxCmd : Option ℚ) : ℚ :=
  max (maxCmd.getD (listMaxQ cmd1d) - minCmd.getD (listMinQ cmd1d)) epsSpan

/-- The `throttle_pct = (cmd - cmin) / span * 100.0` column of
`convert_thrust_lookup.main`. -/
def throttlePct (cmd1d : List ℚ) (minCmd maxCmd : Option ℚ) : List ℚ :=
  cmd1d.map fun c => (c - minCmd.getD (listMinQ cmd1d)) / spanOf cmd1d minCmd maxCmd * 100

/-- One output CSV file: its file name, its header row, and its data rows
(a missing cell is written as an empty field, modelled by `none`). -/
structure CSV where
  fname : String
  header : List String
  rows : List (List (Option ℚ))
deriving DecidableEq

/-- The command-line arguments of `convert_thrust_lookup.py` that influence
the output tables. -/
structure ConvertArgs where
  name : String
  voltage : Option ℚ
  minCmd : Option ℚ
  maxCmd : Option ℚ
deriving DecidableEq

/-- `convert_thrust_lookup.main` after `read_lookup`: writes the long-form
grid CSV and then the 1D throttle-curve CSV, returning the files written
before any raised error, paired with that error: the `pd.DataFrame` length
mismatch in `melt_grid` raises before the first write, while an empty
voltage axis makes the slice step raise only after the long-form CSV was
written. -/
def convert_thrust_lookup_run (voltages forces : List ℚ) (Z : List (List ℚ))
    (a : ConvertArgs) : List CSV × Option String :=
  match melt_grid voltages forces Z with
  | Except.error e => ([], some e)
  | Except.ok long =>
    let csvLong : CSV :=
      ⟨"thrust_lookup_long_" ++ a.name ++ ".csv", ["voltage_V", "force_N", "cmd"],
        long.map fun r => [some r.1, some r.2.1, some r.2.2]⟩
    if voltages.isEmpty then ([csvLong], some "IndexError: empty voltage axis")
    else
      let s := slice_voltage_curve voltages forces Z a.voltage
      let c := invert_cmd_vs_force_to_force_vs_cmd s.2.2 s.2.1
      let thr := throttlePct c.1 a.minCmd a.maxCmd
      let csvCurve : CSV :=
        ⟨"thrustmap_throttle_from_lookup_" ++ a.name ++ ".csv",
          ["cmd", "throttle_pct", "thrust_N", "voltage_V"],
          (c.1.zip (thr.zip c.2)).map fun r => [some r.1, some r.2.1, some r.2.2, some s.1]⟩
      ([csvLong, csvCurve], none)

/-- A pandas `DataFrame`: an association list from column names to columns of
optional cells (`none` is `NaN`). -/
abbrev DF := List (String × List (Option ℚ))

/-- Column-name membership, `name in df.columns`. -/
def hasColDF (df : DF) (c : String) : Bool :=
  (df.find? fun x => x.1 = c).isSome

/-- `df[c]`: the cells of the first column named `c` (`[]` if absent). -/
def getColDF (df : DF) (c : String) : List (Option ℚ) :=
  ((df.find? fun x => x.1 = c).map Prod.snd).getD []

/-- `df[c] = v`: overwrite the column in place when present, otherwise append
it as the last column (pandas column assignment). -/
def setColDF (df : DF) (c : String) (v : List (Option ℚ)) : DF :=
  if hasColDF df c then df.map fun x => if x.1 = c then (c, v) else x
  else df ++ [(c, v)]

/-- `df.rename(columns={old: new})`: rename matching columns in place. -/
def renameColDF (df : DF) (o n : String) : DF :=
  df.map fun x => if x.1 = o then (n, x.2) else x

/-- NaN-propagating product of two cells, `df[v] * df[i]`. -/
def mulOpt : Option ℚ → Option ℚ → Option ℚ
  | some a, some b => some (a * b)
  | _, _ => none

/-- Cell-wise product of two columns. -/
def mulCols (a b : List (Option ℚ)) : List (Option ℚ) := List.zipWith mulOpt a b

/-- NaN-propagating scalar multiple of a column, `df[c].astype(float) * k`. -/
def scaleCol (col : List (Option ℚ)) (k : ℚ) : List (Option ℚ) :=
  col.map fun x => x.map (· * k)

/-- `process_thrust_map.pick_column`: the first alias that is a column of the
frame, if any. -/
def pick_column (df : DF) (aliases : List String) : Option String :=
  aliases.find? fun a => hasColDF df a

/-- `9.80665e-3`, grams-force to Newtons. -/
def gramToN : ℚ := 980665 / 100000000

/-- `9.80665`, kilograms-force to Newtons. -/
def kgfToN : ℚ := 980665 / 100000

/-- `process_thrust_map.ensure_thrust_newton`: normalise the thrust column to
Newtons, returning the frame and the name of the thrust column (if found). -/
def ensure_thrust_newton (df : DF) : DF × Option String :=
  match pick_column df ["thrust_N", "thrust", "force_N"] with
  | some tc =>
    (if tc = "thrust_N" then df else renameColDF df tc "thrust_N", some "thrust_N")
  | none =>
    match pick_column df ["thrust_g", "force_g"] with
    | some gc => (setColDF df "thrust_N" (scaleCol (getColDF df gc) gramToN), some "thrust_N")
    | none =>
      match pick_column df ["thrust_kgf", "force_kgf"] with
      | some kc => (setColDF df "thrust_N" (scaleCol (getColDF df kc) kgfToN), some "thrust_N")
      | none => (df, none)

/-- `process_thrust_map.add_power_if_possible`: derive `power_W` as the
cell-wise product of the first voltage alias and the first current alias
found, when both exist. -/
def add_power_if_possible (df : DF) : DF :=
  match pick_column df ["voltage_V", "voltage", "V", "battery_V"],
        pick_column df ["current_A", "current", "I"] with
  | some v, some i => setColDF df "power_W" (mulCols (getColDF df v) (getColDF df i))
  | _, _ => df

/-- `df[[k, t]].dropna()` on a key column and a value column: the `(key,
value)` pairs of the rows where both cells are present. -/
def dropnaPairs (key value : List (Option ℚ)) : List (ℚ × ℚ) :=
  (key.zip value).filterMap fun p =>
    match p with
    | (some k, some v) => some (k, v)
    | _ => none

/-- The `dropna → groupby(key) → mean → sort_values(key)` pipeline applied to
the key/thrust column pair in `process_thrust_map.main`. -/
def groupMeanTable (key value : List (Option ℚ)) : List (ℚ × ℚ) :=
  groupMeans (dropnaPairs key value)

/-- Number of rows of the frame (length of its first column). -/
def nRowsDF (df : DF) : ℕ := ((df.headD ("", [])).2).length

/-- The `keep_cols` computation of `process_thrust_map.main`: candidates in
fixed order, kept when present in the frame (or equal to a selected column
name), with the `None` placeholders dropped. -/
def keep_cols (df : DF) (throttleCol rpmCol thrustCol : Option String) : List String :=
  (([some "time_s", throttleCol, rpmCol, thrustCol,
     some "voltage_V", some "current_A", some "power_W"] : List (Option String)).filter
    fun c =>
      (match c with
       | some nm => hasColDF df nm
       | none => false) ||
      decide (c = thrustCol ∨ c = throttleCol ∨ c = rpmCol)).filterMap id

/-- `process_thrust_map.main` after `pd.read_csv`: writes the throttle map,
the rpm map and the clean table, whichever have their columns available, and
exits with an error (writing nothing) when none do. -/
def process_thrust_map_run (df0 : DF) (nm : String) : Except String (List CSV) :=
  let e := ensure_thrust_newton df0
  let df := add_power_if_possible e.1
  let thrustCol := e.2
  let throttleCol := pick_column df ["throttle_pct", "throttle_percent", "throttle"]
  let rpmCol := pick_column df ["rpm", "motor_rpm"]
  let outThrottle : List CSV :=
    match throttleCol, thrustCol with
    | some kc, some tc =>
      [⟨"thrustmap_throttle_" ++ nm ++ ".csv", ["throttle_pct", "thrust_N"],
        (groupMeanTable (getColDF df kc) (getColDF df tc)).map fun r => [some r.1, some r.2]⟩]
    | _, _ => []
  let outRpm : List CSV :=
    match rpmCol, thrustCol with
    | some kc, some tc =>
      [⟨"thrustmap_rpm_" ++ nm ++ ".csv", ["rpm", "thrust_N"],
        (groupMeanTable (getColDF df kc) (getColDF df tc)).map fun r => [some r.1, some r.2]⟩]
    | _, _ => []
  let keep := keep_cols df throttleCol rpmCol thrustCol
  let outClean : List CSV :=
    match keep with
    | [] => []
    | _ =>
      [⟨"thrustmap_clean_" ++ nm ++ ".csv", keep,
        (List.range (nRowsDF df)).map fun i => keep.map fun c => (getColDF df c).getD i none⟩]
  let outs := outThrottle ++ outRpm ++ outClean
  if outs.isEmpty then
    Except.error "No outputs were generated. Check your input column names."
  else Except.ok outs

/-- The present (non-NaN) cells of a column, in order. -/
def somes (col : List (Option ℚ)) : List ℚ := col.filterMap id

/-- `pandas` mean of a column with `skipna`: the mean of the present cells,
`NaN` (`none`) when no cell is present. -/
def meanOpt (col : List (Option ℚ)) : Option ℚ :=
  match somes col with
  | [] => none
  | l => some (meanQ l)

/-- `Series.quantile(q)` with the default linear interpolation, on the sorted
present values: at fractional position `h = (n - 1) * q` return
`v[i] + (h - i) * (v[i+1] - v[i])` with `i = ⌊h⌋`. -/
def quantileQ (l : List ℚ) (q : ℚ) : ℚ :=
  let s := List.insertionSort (· ≤ ·) l
  let h : ℚ := ((s.length - 1 : ℕ) : ℚ) * q
  let i : ℕ := (⌊h⌋).toNat
  let low := s.getD i 0
  let high := s.getD (i + 1) low
  low + (h - (i : ℚ)) * (high - low)

/-- `np.linspace(lo, hi, num)`: `num` evenly spaced points from `lo` to `hi`
inclusive. -/
def linspaceQ (lo hi : ℚ) (num : ℕ) : List ℚ :=
  if num = 0 then []
  else if num = 1 then [lo]
  else (List.range num).map fun k : ℕ => lo + (hi - lo) * (k : ℚ) / ((num - 1 : ℕ) : ℚ)

/-- `pd.cut(s, bins=edges, include_lowest=True)` on a single value: the index
of the half-open interval `(edges[j], edges[j+1]]` containing `s`, with `s =
edges[0]` also landing in interval `0`; `none` when `s` is outside the
covered range. -/
def binIndex (edges : List ℚ) (s : ℚ) : Option ℕ :=
  (List.range (edges.length - 1)).find? fun j =>
    decide (edges.getD j 0 < s ∨ (j = 0 ∧ s = edges.getD 0 0)) &&
    decide (s ≤ edges.getD (j + 1) 0)

/-- The bin edges computed by `process_efficiency.main`:
`np.linspace(quantile(0.05), quantile(0.95), bins + 1)` over the speed
column. -/
def effEdges (df : DF) (bins : ℕ) : List ℚ :=
  linspaceQ (quantileQ (somes (getColDF df "speed_mps")) (1 / 20))
    (quantileQ (somes (getColDF df "speed_mps")) (19 / 20)) (bins + 1)

/-- The names of the aggregated columns of `process_efficiency.main`, in the
order of the `agg` dict: `speed_mps`, then `power_W` and `thrust_sum_N` when
present. -/
def effAggCols (df : DF) : List String :=
  ["speed_mps"] ++ (if hasColDF df "power_W" then ["power_W"] else []) ++
    (if hasColDF df "thrust_sum_N" then ["thrust_sum_N"] else [])

/-- The row indices falling in speed bin `j`: rows whose (present) speed is
assigned interval `j` by `pd.cut` on the bin edges. -/
def effBinRows (df : DF) (bins : ℕ) (j : ℕ) : List ℕ :=
  (List.range (getColDF df "speed_mps").length).filter fun i =>
    decide (((getColDF df "speed_mps").getD i none).bind (binIndex (effEdges df bins)) = some j)

/-- The `groupby("speed_bin").agg(mean)` table, one (optional-cell) row per
bin category in bin order, columns in `effAggCols` order. -/
def effAggTable (df : DF) (bins : ℕ) : List (List (Option ℚ)) :=
  (List.range bins).map fun j =>
    (effAggCols df).map fun c =>
      meanOpt ((effBinRows df bins j).map fun i => (getColDF df c).getD i none)

/-- Turn a row of optional cells into a full row, `none` when any cell is
missing: the row-level test used by `DataFrame.dropna()`. -/
def seqRow : List (Option ℚ) → Option (List ℚ)
  | [] => some []
  | none :: _ => none
  | some x :: xs => (seqRow xs).map fun r => x :: r

/-- `dropna()` on a table of optional-cell rows: keep exactly the rows with
no missing cell. -/
def dropnaRows (t : List (List (Option ℚ))) : List (List ℚ) := t.filterMap seqRow

/-- `process_efficiency.energy_per_km`: `(power / speed) * (1000 / 3600)`
(exact rational division; the numpy original produces `inf` at speed zero,
which no claim touches). -/
def energy_per_km (power speed : ℚ) : ℚ := power / speed * (1000 / 3600)

/-- `pd.cut` accepts an array of bin edges when no adjacent pair strictly
decreases and, unless there are exactly two edges, no edge value repeats:
`cut` raises `ValueError` for a strict decrease ("bins must increase
monotonically") or for duplicate edges ("Bin edges must be unique"), but
`_bins_to_cuts` exempts the two-edge case from the duplicate-edge error. -/
def cutEdgesOk (edges : List ℚ) : Prop :=
  edges.Chain' (· ≤ ·) ∧ (edges.Nodup ∨ edges.length = 2)

instance (edges : List ℚ) : Decidable (cutEdgesOk edges) :=
  inferInstanceAs (Decidable (edges.Chain' (· ≤ ·) ∧ (edges.Nodup ∨ edges.length = 2)))

/-- The power-derivation step of `process_efficiency.main`:
`power_W = voltage_V * current_A` when both columns exist. -/
def add_power_process_efficiency (df : DF) : DF :=
  if hasColDF df "voltage_V" && hasColDF df "current_A" then
    setColDF df "power_W" (mulCols (getColDF df "voltage_V") (getColDF df "current_A"))
  else df

/-- `process_efficiency.main` after `pd.read_csv`: derive `power_W`, check
the required columns (`ValueError` otherwise), bin by speed quantiles
(`pd.cut` raises when the bin edges are not strictly increasing), aggregate
bin means, drop incomplete bins, append `energy_Wh_per_km`, and write the
single output CSV. -/
def process_efficiency_run (df0 : DF) (nm : String) (bins : ℕ) : Except String (List CSV) :=
  let df := add_power_process_efficiency df0
  if ¬ hasColDF df "speed_mps" ∨ (¬ hasColDF df "power_W" ∧ ¬ hasColDF df "thrust_sum_N") then
    Except.error "Input must contain speed_mps and either power_W or voltage_V,current_A; optionally thrust_sum_N"
  else if ¬ cutEdgesOk (effEdges df bins) then
    Except.error "bins must increase monotonically and bin edges must be unique"
  else
    let g := dropnaRows (effAggTable df bins)
    let withEnergy := if hasColDF df "power_W" then
        g.map fun r => r ++ [energy_per_km (r.getD 1 0) (r.getD 0 0)]
      else g
    let header := effAggCols df ++ (if hasColDF df "power_W" then ["energy_Wh_per_km"] else [])
    Except.ok [⟨"efficiency_" ++ nm ++ ".csv", header, withEnergy.map fun r => r.map some⟩]

/-- `True` exactly when the script run ended in a raised error / nonzero
exit, in which case the model carries no written output. -/
def isErr : Except String (List CSV) → Bool
  | Except.error _ => true
  | Except.ok _ => false

/-- The files written by a run: none when it raised. -/
def outputsOf : Except String (List CSV) → List CSV
  | Except.error _ => []
  | Except.ok o => o

/-- The key column of a `groupby(key).mean()` result is its key list. -/
theorem groupMeans_map_fst (ps : List (ℚ × ℚ)) :
    (groupMeans ps).map Prod.fst = groupKeys ps := by
  simp [groupMeans, List.map_map, Function.comp_def]

/-- The key list of a `groupby(key).mean()` result is strictly increasing. -/
theorem groupKeys_sorted_lt (ps : List (ℚ × ℚ)) :
    List.Sorted (· < ·) (groupKeys ps) := by
  have hs : List.Sorted (· ≤ ·) (groupKeys ps) := List.sorted_insertionSort _ _
  have hn : (groupKeys ps).Nodup :=
    (List.perm_insertionSort _ _).nodup_iff.mpr (List.nodup_dedup _)
  exact hs.lt_of_le hn

/-- Membership in the group keys is membership in the original key column. -/
theorem mem_groupKeys {x : ℚ} {ps : List (ℚ × ℚ)} :
    x ∈ groupKeys ps ↔ x ∈ ps.map Prod.fst := by
  simp [groupKeys]

/-- The mean is invariant under permutation of the values. -/
theorem meanQ_perm {l l2 : List ℚ} (h : l.Perm l2) : meanQ l = meanQ l2 := by
  unfold meanQ
  rw [h.sum_eq, h.length_eq]

/-- Entry `k` of a `groupby(key).mean()` result pairs key `k` with the mean
of the values sharing that key. -/
theorem groupMeans_getD (ps : List (ℚ × ℚ)) (k : ℕ)
    (hk : k < (groupKeys ps).length) :
    (groupMeans ps).getD k (0, 0) =
      ((groupKeys ps).getD k 0,
        meanQ ((ps.filter fun p => p.1 = (groupKeys ps).getD k 0).map Prod.snd)) := by
  have hk2 : k < (groupMeans ps).length := by
    simpa [groupMeans] using hk
  rw [List.getD_eq_getElem _ _ hk2, List.getD_eq_getElem _ _ hk]
  simp [groupMeans, List.getD_eq_getElem _ _ hk]

/-- Filtering a zip of equal-length columns on the key and projecting the
values equals collecting the values at the indices where the key matches. -/
theorem filter_zip_snd (cmd : List ℚ) (v : ℚ) :
    ∀ force : List ℚ, cmd.length = force.length →
      ((cmd.zip force).filter fun p => p.1 = v).map Prod.snd =
        ((List.range cmd.length).filter fun i => cmd.getD i 0 = v).map
          fun i => force.getD i 0 := by
  induction cmd with
  | nil => simp
  | cons c cs ih =>
    intro force h
    cases force with
    | nil => simp at h
    | cons f fs =>
      have h2 : cs.length = fs.length := by simpa using h
      by_cases hc : c = v
      · simp [List.range_succ_eq_map, List.filter_map, Function.comp_def, hc,
          List.map_map, ih fs h2]
      · simp [List.range_succ_eq_map, List.filter_map, Function.comp_def, hc,
          List.map_map, ih fs h2]

/-- C1: for equal-length arrays `cmd` and `force`,
`invert_cmd_vs_force_to_force_vs_cmd` returns two equal-length arrays; the
first lists exactly the distinct values of `cmd` in strictly increasing
order, and entry `k` of the second is the arithmetic mean of `force[i]` over
the indices `i` with `cmd[i]` equal to entry `k` of the first. -/
theorem C1_invert_cmd_vs_force (cmd force : List ℚ)
    (h : cmd.length = force.length) :
    (invert_cmd_vs_force_to_force_vs_cmd cmd force).1.length =
      (invert_cmd_vs_force_to_force_vs_cmd cmd force).2.length ∧
    List.Sorted (· < ·) (invert_cmd_vs_force_to_force_vs_cmd cmd force).1 ∧
    (∀ x : ℚ, x ∈ (invert_cmd_vs_force_to_force_vs_cmd cmd force).1 ↔ x ∈ cmd) ∧
    ∀ k, k < (invert_cmd_vs_force_to_force_vs_cmd cmd force).1.length →
      (invert_cmd_vs_force_to_force_vs_cmd cmd force).2.getD k 0 =
        meanQ (((List.range cmd.length).filter fun i =>
            cmd.getD i 0 = (invert_cmd_vs_force_to_force_vs_cmd cmd force).1.getD k 0).map
          fun i => force.getD i 0) := by
  have hfst : (invert_cmd_vs_force_to_force_vs_cmd cmd force).1 =
      groupKeys (sortByKey (cmd.zip force)) := by
    simpa [invert_cmd_vs_force_to_force_vs_cmd] using
      groupMeans_map_fst (sortByKey (cmd.zip force))
  have hperm : List.Perm (sortByKey (cmd.zip force)) (cmd.zip force) :=
    List.perm_insertionSort keyLE (cmd.zip force)
  refine ⟨?_, ?_, ?_, ?_⟩
  · simp [invert_cmd_vs_force_to_force_vs_cmd]
  · rw [hfst]
    exact groupKeys_sorted_lt _
  · intro x
    rw [hfst, mem_groupKeys, (hperm.map Prod.fst).mem_iff,
      List.map_fst_zip cmd force (le_of_eq h)]
  · intro k hk
    have hk2 : k < (groupKeys (sortByKey (cmd.zip force))).length := by
      rwa [hfst] at hk
    have hsnd : (invert_cmd_vs_force_to_force_vs_cmd cmd force).2.getD k 0 =
        ((groupMeans (sortByKey (cmd.zip force))).getD k (0, 0)).2 := by
      have hk3 : k < (groupMeans (sortByKey (cmd.zip force))).length := by
        simpa [groupMeans] using hk2
      have hk4 : k < ((groupMeans (sortByKey (cmd.zip force))).map Prod.snd).length := by
        simpa using hk3
      show ((groupMeans (sortByKey (cmd.zip force))).map Prod.snd).getD k 0 = _
      rw [List.getD_eq_getElem _ _ hk4, List.getD_eq_getElem _ _ hk3, List.getElem_map]
    rw [hsnd, groupMeans_getD _ _ hk2]
    rw [hfst]
    exact meanQ_perm ((hperm.filter _).map Prod.snd) |>.trans
      (by rw [filter_zip_snd cmd _ force h])

/-- Witness for C1 at `cmd = [2, 1, 2]`, `force = [10, 30, 20]`. -/
theorem C1_invert_cmd_vs_force_witness :
    (invert_cmd_vs_force_to_force_vs_cmd [2, 1, 2] [10, 30, 20]).1.length =
      (invert_cmd_vs_force_to_force_vs_cmd [2, 1, 2] [10, 30, 20]).2.length ∧
    List.Sorted (· < ·) (invert_cmd_vs_force_to_force_vs_cmd [2, 1, 2] [10, 30, 20]).1 ∧
    ((2 : ℚ) ∈ (invert_cmd_vs_force_to_force_vs_cmd [2, 1, 2] [10, 30, 20]).1 ↔
      (2 : ℚ) ∈ ([2, 1, 2] : List ℚ)) ∧
    (invert_cmd_vs_force_to_force_vs_cmd [2, 1, 2] [10, 30, 20]).2.getD 1 0 =
      meanQ (((List.range ([2, 1, 2] : List ℚ).length).filter fun i =>
          ([2, 1, 2] : List ℚ).getD i 0 =
            (invert_cmd_vs_force_to_force_vs_cmd [2, 1, 2] [10, 30, 20]).1.getD 1 0).map
        fun i => ([10, 30, 20] : List ℚ).getD i 0) := by
  obtain ⟨h1, h2, h3, h4⟩ := C1_invert_cmd_vs_force [2, 1, 2] [10, 30, 20] rfl
  exact ⟨h1, h2, h3 2, h4 1 (by decide)⟩

/-- Reading an appended list below the length of the first part reads the
first part. -/
theorem getD_append_left {α : Type} (d : α) :
    ∀ (l1 l2 : List α) (n : ℕ), n < l1.length → (l1 ++ l2).getD n d = l1.getD n d := by
  intro l1
  induction l1 with
  | nil =>
    intro l2 n hn
    simp at hn
  | cons a l ih =>
    intro l2 n hn
    cases n with
    | zero => simp
    | succ n => simpa using ih l2 n (by simpa using hn)

/-- Reading an appended list at an offset past the first part reads the
second part. -/
theorem getD_append_add {α : Type} (d : α) :
    ∀ (l1 l2 : List α) (n : ℕ), (l1 ++ l2).getD (l1.length + n) d = l2.getD n d := by
  intro l1
  induction l1 with
  | nil =>
    intro l2 n
    simp
  | cons a l ih =>
    intro l2 n
    have harith : l.length + 1 + n = l.length + n + 1 := by omega
    simp only [List.cons_append, List.length_cons, harith, List.getD_cons_succ]
    exact ih l2 n

/-- The flattening of equal-length blocks has the product length. -/
theorem length_flatten_uniform {α : Type} (m : ℕ) :
    ∀ bs : List (List α), (∀ b ∈ bs, b.length = m) →
      bs.flatten.length = bs.length * m := by
  intro bs
  induction bs with
  | nil => simp
  | cons b t ih =>
    intro hm
    simp only [List.flatten_cons, List.length_append, List.length_cons]
    rw [hm b (by simp), ih fun x hx => hm x (by simp [hx]), Nat.succ_mul]
    ring

/-- Reading the flattening of equal-length blocks at `i * m + j` reads entry
`j` of block `i`. -/
theorem getD_flatten_uniform {α : Type} (m : ℕ) (d : α) :
    ∀ (bs : List (List α)) (i j : ℕ), (∀ b ∈ bs, b.length = m) →
      i < bs.length → j < m →
      bs.flatten.getD (i * m + j) d = (bs.getD i []).getD j d := by
  intro bs
  induction bs with
  | nil =>
    intro i j _ hi _
    simp at hi
  | cons b t ih =>
    intro i j hm hi hj
    have hb : b.length = m := hm b (by simp)
    cases i with
    | zero =>
      simp only [List.flatten_cons, Nat.zero_mul, Nat.zero_add, List.getD_cons_zero]
      exact getD_append_left d b t.flatten j (by rw [hb]; exact hj)
    | succ i =>
      have harith : (i + 1) * m + j = b.length + (i * m + j) := by
        rw [hb, Nat.succ_mul]
        ring
      simp only [List.flatten_cons, harith, List.getD_cons_succ]
      rw [getD_append_add]
      exact ih i j (fun x hx => hm x (by simp [hx])) (by simpa using hi) hj

/-- Total raveled length of equal-length rows. -/
theorem sum_map_length_uniform {α : Type} (m : ℕ) :
    ∀ bs : List (List α), (∀ b ∈ bs, b.length = m) →
      (bs.map List.length).sum = bs.length * m := by
  intro bs
  induction bs with
  | nil => simp
  | cons b t ih =>
    intro hm
    simp only [List.map_cons, List.sum_cons, List.length_cons]
    rw [hm b (by simp), ih fun x hx => hm x (by simp [hx]), Nat.succ_mul]
    ring

/-- Reading a zip within both bounds pairs the two reads. -/
theorem getD_zip_both {α β : Type} (a : List α) (b : List β) (k : ℕ) (da : α) (db : β)
    (ha : k < a.length) (hb : k < b.length) :
    (a.zip b).getD k (da, db) = (a.getD k da, b.getD k db) := by
  have hz : k < (a.zip b).length := by
    rw [List.length_zip]
    exact lt_min ha hb
  rw [List.getD_eq_getElem _ _ hz, List.getD_eq_getElem _ _ ha,
    List.getD_eq_getElem _ _ hb, List.getElem_zip]

/-- The raveled mesh has the product length. -/
theorem meltMesh_length (voltages forces : List ℚ) :
    (meltMesh voltages forces).length = voltages.length * forces.length := by
  unfold meltMesh
  have hunif : ∀ b ∈ voltages.map fun v => forces.map fun f => (v, f),
      b.length = forces.length := by
    intro b hb
    obtain ⟨v, hv, rfl⟩ := List.mem_map.mp hb
    simp
  rw [length_flatten_uniform forces.length _ hunif, List.length_map]

/-- Entry `i * |forces| + j` of the raveled mesh is `(voltages[i], forces[j])`. -/
theorem meltMesh_getD (voltages forces : List ℚ) (i j : ℕ)
    (hi : i < voltages.length) (hj : j < forces.length) :
    (meltMesh voltages forces).getD (i * forces.length + j) (0, 0) =
      (voltages.getD i 0, forces.getD j 0) := by
  unfold meltMesh
  have hunif : ∀ b ∈ voltages.map fun v => forces.map fun f => (v, f),
      b.length = forces.length := by
    intro b hb
    obtain ⟨v, hv, rfl⟩ := List.mem_map.mp hb
    simp
  have hib : i < (voltages.map fun v => forces.map fun f => (v, f)).length := by
    simpa using hi
  rw [getD_flatten_uniform forces.length (0, (0 : ℚ)) _ i j hunif hib hj]
  rw [List.getD_eq_getElem _ _ hib, List.getElem_map]
  have hjb : j < (forces.map fun f => (voltages[i], f)).length := by
    simpa using hj
  rw [List.getD_eq_getElem _ _ hjb, List.getElem_map]
  rw [List.getD_eq_getElem _ _ hi, List.getD_eq_getElem _ _ hj]

/-- C2: on an `N × N` grid `Z` with axes `voltages` and `forces`, `melt_grid`
succeeds (the raveled lengths agree, so `pd.DataFrame` accepts the columns)
and produces exactly `N * N` long-form rows, the row at position `i * N + j`
being `(voltages[i], forces[j], Z[i][j])`: the columns `voltage_V`,
`force_N`, `cmd` in voltage-major (row-major) order. -/
theorem C2_melt_grid (voltages forces : List ℚ) (Z : List (List ℚ)) (N : ℕ)
    (hv : voltages.length = N) (hf : forces.length = N) (hz : Z.length = N)
    (hrow : ∀ r ∈ Z, r.length = N) :
    (∃ rows, melt_grid voltages forces Z = Except.ok rows) ∧
    (rowsOf (melt_grid voltages forces Z)).length = N * N ∧
    ∀ i j, i < N → j < N →
      (rowsOf (melt_grid voltages forces Z)).getD (i * N + j) (0, 0, 0) =
        (voltages.getD i 0, forces.getD j 0, (Z.getD i []).getD j 0) := by
  have hguard : (Z.map List.length).sum = voltages.length * forces.length := by
    rw [sum_map_length_uniform N Z hrow, hv, hf, hz]
  have hmg : melt_grid voltages forces Z = Except.ok
      (((meltMesh voltages forces).zip Z.flatten).map fun p => (p.1.1, p.1.2, p.2)) := by
    unfold melt_grid
    rw [if_pos hguard]
  have hmesh_len : (meltMesh voltages forces).length = N * N := by
    rw [meltMesh_length, hv, hf]
  have hflat_len : Z.flatten.length = N * N := by
    rw [length_flatten_uniform N Z hrow, hz]
  refine ⟨⟨_, hmg⟩, ?_, ?_⟩
  · rw [hmg]
    show (((meltMesh voltages forces).zip Z.flatten).map
      fun p => (p.1.1, p.1.2, p.2)).length = N * N
    rw [List.length_map, List.length_zip, hmesh_len, hflat_len, min_self]
  · intro i j hi hj
    have ht : i * N + j < N * N := by
      have h1 : i * N + j < (i + 1) * N := by
        rw [Nat.succ_mul]
        omega
      have h2 : (i + 1) * N ≤ N * N := Nat.mul_le_mul_right N hi
      omega
    rw [hmg]
    show (((meltMesh voltages forces).zip Z.flatten).map
      fun p => (p.1.1, p.1.2, p.2)).getD (i * N + j) (0, 0, 0) = _
    have htm : i * N + j < ((meltMesh voltages forces).zip Z.flatten).length := by
      rw [List.length_zip, hmesh_len, hflat_len, min_self]
      exact ht
    have htb : i * N + j < (((meltMesh voltages forces).zip Z.flatten).map
        fun p => (p.1.1, p.1.2, p.2)).length := by
      simpa using htm
    rw [List.getD_eq_getElem _ _ htb, List.getElem_map]
    have hmesh := meltMesh_getD voltages forces i j (hv ▸ hi) (hf ▸ hj)
    rw [hf] at hmesh
    have hflat := getD_flatten_uniform N (0 : ℚ) Z i j hrow (hz ▸ hi) hj
    have hzipD := getD_zip_both (meltMesh voltages forces) Z.flatten (i * N + j)
      (0, 0) 0 (by rw [hmesh_len]; exact ht) (by rw [hflat_len]; exact ht)
    rw [List.getD_eq_getElem _ _ htm] at hzipD
    rw [hzipD, hmesh, hflat]

/-- Witness for C2 at the 2 × 2 grid `Z = [[5, 6], [7, 8]]` with voltage axis
`[10, 20]` and force axis `[1, 2]`. -/
theorem C2_melt_grid_witness :
    (∃ rows, melt_grid [10, 20] [1, 2] [[5, 6], [7, 8]] = Except.ok rows) ∧
    (rowsOf (melt_grid [10, 20] [1, 2] [[5, 6], [7, 8]])).length = 2 * 2 ∧
    (rowsOf (melt_grid [10, 20] [1, 2] [[5, 6], [7, 8]])).getD (1 * 2 + 0) (0, 0, 0) =
      (([10, 20] : List ℚ).getD 1 0, ([1, 2] : List ℚ).getD 0 0,
        (([[5, 6], [7, 8]] : List (List ℚ)).getD 1 []).getD 0 0) := by
  obtain ⟨h1, h2, h3⟩ := C2_melt_grid [10, 20] [1, 2] [[5, 6], [7, 8]] 2 rfl rfl rfl (by decide)
  exact ⟨h1, h2, h3 1 0 (by decide) (by decide)⟩

/-- Appending a fresh column makes it readable under its name. -/
theorem getColDF_append_new (c : String) (v : List (Option ℚ)) :
    ∀ df : DF, hasColDF df c = false → getColDF (df ++ [(c, v)]) c = v := by
  intro df
  induction df with
  | nil =>
    intro _
    simp [getColDF, List.find?]
  | cons x t ih =>
    intro h
    by_cases hx : x.1 = c
    · exfalso
      simp [hasColDF, List.find?, hx] at h
    · have ht : hasColDF t c = false := by
        simpa [hasColDF, List.find?, hx] using h
      simpa [getColDF, List.find?, hx] using ih ht

/-- Overwriting an existing column makes the new cells readable under its
name. -/
theorem getColDF_overwrite (c : String) (v : List (Option ℚ)) :
    ∀ df : DF, hasColDF df c = true →
      getColDF (df.map fun x => if x.1 = c then (c, v) else x) c = v := by
  intro df
  induction df with
  | nil =>
    intro h
    simp [hasColDF, List.find?] at h
  | cons x t ih =>
    intro h
    by_cases hx : x.1 = c
    · simp [getColDF, List.find?, hx]
    · have ht : hasColDF t c = true := by
        simpa [hasColDF, List.find?, hx] using h
      simpa [getColDF, List.find?, hx] using ih ht

/-- Column assignment stores exactly the assigned cells. -/
theorem getColDF_setColDF (df : DF) (c : String) (v : List (Option ℚ)) :
    getColDF (setColDF df c v) c = v := by
  unfold setColDF
  by_cases h : hasColDF df c
  · simpa [h] using getColDF_overwrite c v df h
  · simpa [h] using getColDF_append_new c v df (by simpa using h)

/-- A column is present after appending a column of that name. -/
theorem hasColDF_append_self (c : String) (v : List (Option ℚ)) :
    ∀ df : DF, hasColDF (df ++ [(c, v)]) c = true := by
  intro df
  induction df with
  | nil => simp [hasColDF, List.find?]
  | cons x t ih =>
    by_cases hx : x.1 = c
    · simp [hasColDF, List.find?, hx]
    · simp only [List.cons_append]
      rw [show hasColDF ((x :: (t ++ [(c, v)])) : DF) c = hasColDF (t ++ [(c, v)]) c from by
        simp [hasColDF, List.find?, hx]]
      exact ih

/-- A present column stays present when overwritten in place. -/
theorem hasColDF_overwrite (c : String) (v : List (Option ℚ)) :
    ∀ df : DF, hasColDF df c = true →
      hasColDF (df.map fun x => if x.1 = c then (c, v) else x) c = true := by
  intro df
  induction df with
  | nil =>
    intro h
    simpa using h
  | cons x t ih =>
    intro h
    by_cases hx : x.1 = c
    · simp [hasColDF, List.find?, hx]
    · have ht : hasColDF t c = true := by
        simpa [hasColDF, List.find?, hx] using h
      simpa [hasColDF, List.find?, hx] using ih ht

/-- Column assignment makes the column present. -/
theorem hasColDF_setColDF (df : DF) (c : String) (v : List (Option ℚ)) :
    hasColDF (setColDF df c v) c = true := by
  unfold setColDF
  by_cases h : hasColDF df c
  · simpa [h] using hasColDF_overwrite c v df h
  · simpa [h] using hasColDF_append_self c v df

/-- Cell-wise column product at an index where both cells are present. -/
theorem getD_mulCols :
    ∀ (a b : List (Option ℚ)) (i : ℕ) (x y : ℚ),
      a.getD i none = some x → b.getD i none = some y →
      (mulCols a b).getD i none = some (x * y) := by
  intro a
  induction a with
  | nil =>
    intro b i x y hx
    simp at hx
  | cons a0 t ih =>
    intro b i x y hx hy
    cases b with
    | nil => simp at hy
    | cons b0 s =>
      cases i with
      | zero =>
        simp only [List.getD_cons_zero] at hx hy
        simp [mulCols, hx, hy, mulOpt]
      | succ i =>
        simp only [List.getD_cons_succ] at hx hy
        simpa [mulCols] using ih s i x y hx hy

/-- A picked column is one of the frame's columns. -/
theorem pick_column_hasCol {df : DF} {aliases : List String} {a : String}
    (h : pick_column df aliases = some a) : hasColDF df a = true := by
  simpa using List.find?_some h

/-- C3: when both a voltage and a current column are present (exactly
`voltage_V`/`current_A` in `process_efficiency`, the first matching alias in
`process_thrust_map`), a `power_W` column is derived whose cell in every row
is the product of that row's voltage and current cells; when either column is
absent the frame is returned unchanged, so no `power_W` column is derived. -/
theorem C3_power_derivation (df : DF) :
    ((hasColDF df "voltage_V" = true ∧ hasColDF df "current_A" = true) →
      hasColDF (add_power_process_efficiency df) "power_W" = true ∧
      ∀ i x y, (getColDF df "voltage_V").getD i none = some x →
        (getColDF df "current_A").getD i none = some y →
        (getColDF (add_power_process_efficiency df) "power_W").getD i none = some (x * y)) ∧
    ((hasColDF df "voltage_V" = false ∨ hasColDF df "current_A" = false) →
      add_power_process_efficiency df = df) ∧
    (∀ vc ic, pick_column df ["voltage_V", "voltage", "V", "battery_V"] = some vc →
      pick_column df ["current_A", "current", "I"] = some ic →
      hasColDF (add_power_if_possible df) "power_W" = true ∧
      ∀ i x y, (getColDF df vc).getD i none = some x →
        (getColDF df ic).getD i none = some y →
        (getColDF (add_power_if_possible df) "power_W").getD i none = some (x * y)) ∧
    ((pick_column df ["voltage_V", "voltage", "V", "battery_V"] = none ∨
      pick_column df ["current_A", "current", "I"] = none) →
      add_power_if_possible df = df) := by
  refine ⟨?_, ?_, ?_, ?_⟩
  · rintro ⟨h1, h2⟩
    have hd : add_power_process_efficiency df =
        setColDF df "power_W" (mulCols (getColDF df "voltage_V") (getColDF df "current_A")) := by
      simp [add_power_process_efficiency, h1, h2]
    refine ⟨by rw [hd]; exact hasColDF_setColDF _ _ _, ?_⟩
    intro i x y hx hy
    rw [hd, getColDF_setColDF]
    exact getD_mulCols _ _ i x y hx hy
  · intro h
    rcases h with h | h <;> simp [add_power_process_efficiency, h]
  · intro vc ic hvc hic
    have hd : add_power_if_possible df =
        setColDF df "power_W" (mulCols (getColDF df vc) (getColDF df ic)) := by
      simp [add_power_if_possible, hvc, hic]
    refine ⟨by rw [hd]; exact hasColDF_setColDF _ _ _, ?_⟩
    intro i x y hx hy
    rw [hd, getColDF_setColDF]
    exact getD_mulCols _ _ i x y hx hy
  · intro h
    rcases h with h | h
    · simp [add_power_if_possible, h]
    · cases hvc : pick_column df ["voltage_V", "voltage", "V", "battery_V"] with
      | none => simp [add_power_if_possible, hvc]
      | some vc => simp [add_power_if_possible, hvc, h]

/-- Witness for C3 at a one-row frame with `voltage_V = 2`, `current_A = 3`,
and at a frame with a `voltage` alias but no current column. -/
theorem C3_power_derivation_witness :
    (hasColDF (add_power_process_efficiency
        [("voltage_V", [some 2]), ("current_A", [some 3])]) "power_W" = true ∧
      (getColDF (add_power_process_efficiency
        [("voltage_V", [some 2]), ("current_A", [some 3])]) "power_W").getD 0 none =
        some (2 * 3)) ∧
    add_power_if_possible [("voltage", [some 2])] = [("voltage", [some 2])] := by
  constructor
  · obtain ⟨h1, h2⟩ :=
      (C3_power_derivation [("voltage_V", [some 2]), ("current_A", [some 3])]).1
        ⟨by decide, by decide⟩
    exact ⟨h1, h2 0 2 3 rfl rfl⟩
  · exact (C3_power_derivation [("voltage", [some 2])]).2.2.2 (Or.inr (by decide))

/-- Renaming a column to a previously unused name moves its cells to the new
name. -/
theorem getColDF_rename (o n : String) :
    ∀ df : DF, hasColDF df n = false →
      getColDF (renameColDF df o n) n = getColDF df o := by
  intro df
  induction df with
  | nil =>
    intro _
    simp [getColDF, renameColDF]
  | cons x t ih =>
    intro h
    have hxn : ¬ x.1 = n := by
      intro hx
      simp [hasColDF, List.find?, hx] at h
    have ht : hasColDF t n = false := by
      simpa [hasColDF, List.find?, hxn] using h
    by_cases hx : x.1 = o
    · simp [getColDF, renameColDF, List.find?, hx]
    · simpa [getColDF, renameColDF, List.find?, hx, hxn] using ih ht

/-- `pick_column` returns the first alias when that alias is present. -/
theorem pick_column_head {df : DF} {a : String} (rest : List String)
    (h : hasColDF df a = true) : pick_column df (a :: rest) = some a := by
  simp [pick_column, List.find?, h]

/-- Scaling a column multiplies every present cell by the factor. -/
theorem getD_scaleCol :
    ∀ (col : List (Option ℚ)) (k : ℚ) (i : ℕ) (x : ℚ),
      col.getD i none = some x → (scaleCol col k).getD i none = some (x * k) := by
  intro col
  induction col with
  | nil =>
    intro k i x hx
    simp at hx
  | cons c0 t ih =>
    intro k i x hx
    cases i with
    | zero =>
      simp only [List.getD_cons_zero] at hx
      simp [scaleCol, hx]
    | succ i =>
      simp only [List.getD_cons_succ] at hx
      simpa [scaleCol] using ih k i x hx

/-- C4: `ensure_thrust_newton` renames the first of `thrust_N`, `thrust`,
`force_N` to `thrust_N` with its cells unchanged; otherwise derives
`thrust_N` from `thrust_g`/`force_g` times `9.80665e-3`, or from
`thrust_kgf`/`force_kgf` times `9.80665`; otherwise returns the frame
unchanged and reports no thrust column. -/
theorem C4_ensure_thrust_newton (df : DF) :
    (∀ tc, pick_column df ["thrust_N", "thrust", "force_N"] = some tc →
      (ensure_thrust_newton df).2 = some "thrust_N" ∧
      getColDF (ensure_thrust_newton df).1 "thrust_N" = getColDF df tc) ∧
    (pick_column df ["thrust_N", "thrust", "force_N"] = none →
      ∀ gc, pick_column df ["thrust_g", "force_g"] = some gc →
        (ensure_thrust_newton df).2 = some "thrust_N" ∧
        ∀ i x, (getColDF df gc).getD i none = some x →
          (getColDF (ensure_thrust_newton df).1 "thrust_N").getD i none = some (x * gramToN)) ∧
    (pick_column df ["thrust_N", "thrust", "force_N"] = none →
      pick_column df ["thrust_g", "force_g"] = none →
      ∀ kc, pick_column df ["thrust_kgf", "force_kgf"] = some kc →
        (ensure_thrust_newton df).2 = some "thrust_N" ∧
        ∀ i x, (getColDF df kc).getD i none = some x →
          (getColDF (ensure_thrust_newton df).1 "thrust_N").getD i none = some (x * kgfToN)) ∧
    (pick_column df ["thrust_N", "thrust", "force_N"] = none →
      pick_column df ["thrust_g", "force_g"] = none →
      pick_column df ["thrust_kgf", "force_kgf"] = none →
      ensure_thrust_newton df = (df, none)) := by
  refine ⟨?_, ?_, ?_, ?_⟩
  · intro tc h
    have hd : ensure_thrust_newton df =
        (if tc = "thrust_N" then df else renameColDF df tc "thrust_N", some "thrust_N") := by
      simp [ensure_thrust_newton, h]
    by_cases htc : tc = "thrust_N"
    · subst htc
      rw [hd]
      simp
    · have hnoN : hasColDF df "thrust_N" = false := by
        by_cases hN : hasColDF df "thrust_N" = true
        · rw [pick_column_head ["thrust", "force_N"] hN] at h
          exact absurd (Option.some.inj h).symm htc
        · simpa using hN
      rw [hd]
      simpa [htc] using getColDF_rename tc "thrust_N" df hnoN
  · intro hn gc hg
    have hd : ensure_thrust_newton df =
        (setColDF df "thrust_N" (scaleCol (getColDF df gc) gramToN), some "thrust_N") := by
      simp [ensure_thrust_newton, hn, hg]
    refine ⟨by rw [hd], ?_⟩
    intro i x hx
    rw [hd]
    show (getColDF (setColDF df "thrust_N" (scaleCol (getColDF df gc) gramToN)) "thrust_N").getD i none = _
    rw [getColDF_setColDF]
    exact getD_scaleCol _ _ i x hx
  · intro hn hg kc hk
    have hd : ensure_thrust_newton df =
        (setColDF df "thrust_N" (scaleCol (getColDF df kc) kgfToN), some "thrust_N") := by
      simp [ensure_thrust_newton, hn, hg, hk]
    refine ⟨by rw [hd], ?_⟩
    intro i x hx
    rw [hd]
    show (getColDF (setColDF df "thrust_N" (scaleCol (getColDF df kc) kgfToN)) "thrust_N").getD i none = _
    rw [getColDF_setColDF]
    exact getD_scaleCol _ _ i x hx
  · intro hn hg hk
    simp [ensure_thrust_newton, hn, hg, hk]

/-- Witness for C4 at a frame with a `thrust` column (rename case) and a
frame with only `thrust_g` (grams case). -/
theorem C4_ensure_thrust_newton_witness :
    ((ensure_thrust_newton [("thrust", [some 5])]).2 = some "thrust_N" ∧
      getColDF (ensure_thrust_newton [("thrust", [some 5])]).1 "thrust_N" =
        getColDF [("thrust", [some 5])] "thrust") ∧
    (getColDF (ensure_thrust_newton [("thrust_g", [some 1000])]).1 "thrust_N").getD 0 none =
      some (1000 * gramToN) := by
  constructor
  · exact (C4_ensure_thrust_newton [("thrust", [some 5])]).1 "thrust" (by decide)
  · exact ((C4_ensure_thrust_newton [("thrust_g", [some 1000])]).2.1 (by decide) "thrust_g"
      (by decide)).2 0 1000 rfl

/-- C8 counterexample: with key column `[1, 2]` and thrust column
`[10, NaN]`, the `dropna` step removes the row with key `2`, so the grouped
table has a single row even though the input has two distinct non-missing key
values; the claim that there is one output row per distinct non-missing key
value of the input fails. -/
theorem C8_counterexample :
    (groupMeanTable [some 1, some 2] [some 10, none]).length = 1 ∧
    (([some (1 : ℚ), some 2].filterMap id).dedup).length = 2 := by
  constructor
  · decide
  · decide

/-- C8 amended: the grouped throttle/rpm table has exactly one row per
distinct key value among the rows where both the key and the thrust are
non-missing, in strictly ascending key order, and each row's thrust is the
mean thrust over those rows. -/
theorem C8_thrust_map_grouping (key thrust : List (Option ℚ))
    (_h : key.length = thrust.length) :
    List.Sorted (· < ·) ((groupMeanTable key thrust).map Prod.fst) ∧
    (∀ x : ℚ, x ∈ (groupMeanTable key thrust).map Prod.fst ↔
      x ∈ (dropnaPairs key thrust).map Prod.fst) ∧
    ∀ k, k < (groupMeanTable key thrust).length →
      (groupMeanTable key thrust).getD k (0, 0) =
        (((groupMeanTable key thrust).map Prod.fst).getD k 0,
          meanQ (((dropnaPairs key thrust).filter fun p =>
            p.1 = ((groupMeanTable key thrust).map Prod.fst).getD k 0).map Prod.snd)) := by
  refine ⟨?_, ?_, ?_⟩
  · rw [groupMeanTable, groupMeans_map_fst]
    exact groupKeys_sorted_lt _
  · intro x
    rw [groupMeanTable, groupMeans_map_fst, mem_groupKeys]
  · intro k hk
    have hk2 : k < (groupKeys (dropnaPairs key thrust)).length := by
      simpa [groupMeanTable, groupMeans] using hk
    rw [groupMeanTable, groupMeans_map_fst]
    exact groupMeans_getD _ k hk2

/-- Witness for C8 at key column `[1, 2, 1]`, thrust column `[10, NaN, 30]`. -/
theorem C8_thrust_map_grouping_witness :
    List.Sorted (· < ·) ((groupMeanTable [some 1, some 2, some 1] [some 10, none, some 30]).map Prod.fst) ∧
    ((1 : ℚ) ∈ (groupMeanTable [some 1, some 2, some 1] [some 10, none, some 30]).map Prod.fst ↔
      (1 : ℚ) ∈ (dropnaPairs [some 1, some 2, some 1] [some 10, none, some 30]).map Prod.fst) ∧
    (groupMeanTable [some 1, some 2, some 1] [some 10, none, some 30]).getD 0 (0, 0) =
      (((groupMeanTable [some 1, some 2, some 1] [some 10, none, some 30]).map Prod.fst).getD 0 0,
        meanQ (((dropnaPairs [some 1, some 2, some 1] [some 10, none, some 30]).filter fun p =>
          p.1 = ((groupMeanTable [some 1, some 2, some 1] [some 10, none, some 30]).map
            Prod.fst).getD 0 0).map Prod.snd)) := by
  obtain ⟨h1, h2, h3⟩ :=
    C8_thrust_map_grouping [some 1, some 2, some 1] [some 10, none, some 30] rfl
  exact ⟨h1, h2 1, h3 0 (by decide)⟩

/-- A `min`-fold is bounded by its initial accumulator. -/
theorem foldl_min_le_init : ∀ (t : List ℚ) (a : ℚ), t.foldl min a ≤ a := by
  intro t
  induction t with
  | nil => intro a; simp
  | cons b s ih =>
    intro a
    calc s.foldl min (min a b) ≤ min a b := ih (min a b)
    _ ≤ a := min_le_left a b

/-- A `min`-fold is bounded by every list element. -/
theorem foldl_min_le_mem : ∀ (t : List ℚ) (a x : ℚ), x ∈ t → t.foldl min a ≤ x := by
  intro t
  induction t with
  | nil =>
    intro a x hx
    simp at hx
  | cons b s ih =>
    intro a x hx
    rcases List.mem_cons.mp hx with rfl | hx
    · calc s.foldl min (min a x) ≤ min a x := foldl_min_le_init s (min a x)
      _ ≤ x := min_le_right a x
    · exact ih (min a b) x hx

/-- `np.min` bounds every element from below. -/
theorem listMinQ_le {l : List ℚ} {x : ℚ} (hx : x ∈ l) : listMinQ l ≤ x := by
  cases l with
  | nil => simp at hx
  | cons a t =>
    rcases List.mem_cons.mp hx with rfl | hx
    · exact foldl_min_le_init t x
    · exact foldl_min_le_mem t a x hx

/-- A `max`-fold is bounded below by its initial accumulator. -/
theorem init_le_foldl_max : ∀ (t : List ℚ) (a : ℚ), a ≤ t.foldl max a := by
  intro t
  induction t with
  | nil => intro a; simp
  | cons b s ih =>
    intro a
    calc a ≤ max a b := le_max_left a b
    _ ≤ s.foldl max (max a b) := ih (max a b)

/-- A `max`-fold is bounded below by every list element. -/
theorem mem_le_foldl_max : ∀ (t : List ℚ) (a x : ℚ), x ∈ t → x ≤ t.foldl max a := by
  intro t
  induction t with
  | nil =>
    intro a x hx
    simp at hx
  | cons b s ih =>
    intro a x hx
    rcases List.mem_cons.mp hx with rfl | hx
    · calc x ≤ max a x := le_max_right a x
      _ ≤ s.foldl max (max a x) := init_le_foldl_max s (max a x)
    · exact ih (max a b) x hx

/-- `np.max` bounds every element from above. -/
theorem le_listMaxQ {l : List ℚ} {x : ℚ} (hx : x ∈ l) : x ≤ listMaxQ l := by
  cases l with
  | nil => simp at hx
  | cons a t =>
    rcases List.mem_cons.mp hx with rfl | hx
    · exact init_le_foldl_max t x
    · exact mem_le_foldl_max t a x hx

/-- C9: the normalisation span is always at least `1e-9` (in particular
positive, so the division never divides by zero), and with the default
`--min-cmd`/`--max-cmd` and `cmax - cmin ≥ 1e-9` every `throttle_pct` value
lies in `[0, 100]`. -/
theorem C9_throttle_normalization (cmd1d : List ℚ) (minCmd maxCmd : Option ℚ) :
    epsSpan ≤ spanOf cmd1d minCmd maxCmd ∧ 0 < spanOf cmd1d minCmd maxCmd ∧
    (minCmd = none → maxCmd = none →
      epsSpan ≤ listMaxQ cmd1d - listMinQ cmd1d →
      ∀ t ∈ throttlePct cmd1d minCmd maxCmd, 0 ≤ t ∧ t ≤ 100) := by
  have heps : (0 : ℚ) < epsSpan := by norm_num [epsSpan]
  have hspan_eps : epsSpan ≤ spanOf cmd1d minCmd maxCmd := le_max_right _ _
  have hspan_pos : 0 < spanOf cmd1d minCmd maxCmd := lt_of_lt_of_le heps hspan_eps
  refine ⟨hspan_eps, hspan_pos, ?_⟩
  rintro rfl rfl hdiff t ht
  obtain ⟨c, hc, rfl⟩ := List.mem_map.mp ht
  have hspan_eq : spanOf cmd1d none none = listMaxQ cmd1d - listMinQ cmd1d := by
    unfold spanOf
    simpa using max_eq_left hdiff
  have hm : listMinQ cmd1d ≤ c := listMinQ_le hc
  have hM : c ≤ listMaxQ cmd1d := le_listMaxQ hc
  have hpos : (0 : ℚ) < spanOf cmd1d none none := hspan_pos
  constructor
  · have h0 : 0 ≤ (c - listMinQ cmd1d) / spanOf cmd1d none none :=
      div_nonneg (by simpa using sub_nonneg.mpr hm) (le_of_lt hpos)
    simpa using mul_nonneg h0 (by norm_num : (0 : ℚ) ≤ 100)
  · have h1 : (c - listMinQ cmd1d) / spanOf cmd1d none none ≤ 1 := by
      rw [div_le_one hpos, hspan_eq]
      simpa using sub_le_sub_right hM (listMinQ cmd1d)
    calc (c - Option.getD none (listMinQ cmd1d)) / spanOf cmd1d none none * 100
        = (c - listMinQ cmd1d) / spanOf cmd1d none none * 100 := by simp
    _ ≤ 1 * 100 := mul_le_mul_of_nonneg_right h1 (by norm_num)
    _ = 100 := one_mul 100

/-- Witness for C9 at the curve `cmd = [0, 50, 100]` with default bounds. -/
theorem C9_throttle_normalization_witness :
    (epsSpan ≤ spanOf [0, 50, 100] none none ∧ 0 < spanOf [0, 50, 100] none none) ∧
    ∀ t ∈ throttlePct [0, 50, 100] none none, 0 ≤ t ∧ t ≤ 100 := by
  obtain ⟨h1, h2, h3⟩ := C9_throttle_normalization [0, 50, 100] none none
  refine ⟨⟨h1, h2⟩, h3 rfl rfl ?_⟩
  norm_num [listMaxQ, listMinQ, epsSpan]

/-- `np.linspace` returns exactly `num` points. -/
theorem linspaceQ_length (lo hi : ℚ) (num : ℕ) : (linspaceQ lo hi num).length = num := by
  rcases num with _ | _ | n <;> simp [linspaceQ]

/-- Closed form of a `np.linspace` entry (at least two points). -/
theorem linspaceQ_getD (lo hi : ℚ) (num k : ℕ) (h2 : 2 ≤ num) (hk : k < num) :
    (linspaceQ lo hi num).getD k 0 = lo + (hi - lo) * (k : ℚ) / ((num - 1 : ℕ) : ℚ) := by
  have h0 : ¬ num = 0 := by omega
  have h1 : ¬ num = 1 := by omega
  unfold linspaceQ
  rw [if_neg h0, if_neg h1]
  have hk3 : k < ((List.range num).map fun k : ℕ =>
      lo + (hi - lo) * (k : ℚ) / ((num - 1 : ℕ) : ℚ)).length := by
    simpa using hk
  rw [List.getD_eq_getElem _ _ hk3, List.getElem_map, List.getElem_range]

/-- On a column of present cells, `somes` extracts the values in order. -/
theorem somes_of_all_isSome :
    ∀ l : List (Option ℚ), (∀ x ∈ l, x.isSome = true) →
      somes l = l.map fun x => x.getD 0 := by
  intro l
  induction l with
  | nil =>
    intro _
    simp [somes]
  | cons x t ih =>
    intro h
    obtain ⟨v, rfl⟩ := Option.isSome_iff_exists.mp (h x (by simp))
    simpa [somes] using ih fun y hy => h y (by simp [hy])

/-- The skipna mean of a nonempty column of present cells is the plain mean
of its values. -/
theorem meanOpt_of_all_isSome (l : List (Option ℚ))
    (h : ∀ x ∈ l, x.isSome = true) (hne : l ≠ []) :
    meanOpt l = some (meanQ (l.map fun x => x.getD 0)) := by
  unfold meanOpt
  rw [somes_of_all_isSome l h]
  cases l with
  | nil => exact absurd rfl hne
  | cons x t => rfl

/-- A row of present cells survives `dropna` with its values. -/
theorem seqRow_all_some :
    ∀ r : List (Option ℚ), (∀ x ∈ r, x.isSome = true) →
      seqRow r = some (r.map fun x => x.getD 0) := by
  intro r
  induction r with
  | nil =>
    intro _
    simp [seqRow]
  | cons x t ih =>
    intro h
    obtain ⟨v, rfl⟩ := Option.isSome_iff_exists.mp (h x (by simp))
    simp [seqRow, ih fun y hy => h y (by simp [hy])]

/-- A `filterMap` that acts as `if p then some (g x) else none` is a filter
followed by a map. -/
theorem filterMap_eq_filter_map {α β : Type} (p : α → Bool) (g : α → β) :
    ∀ (l : List α) (f : α → Option β),
      (∀ x ∈ l, f x = if p x then some (g x) else none) →
      l.filterMap f = (l.filter p).map g := by
  intro l
  induction l with
  | nil =>
    intro f _
    simp
  | cons a t ih =>
    intro f h
    rw [List.filterMap_cons, List.filter_cons, h a (by simp)]
    by_cases hp : p a
    · simp only [hp, if_true]
      rw [List.map_cons, ih f fun x hx => h x (by simp [hx])]
    · simp only [hp]
      simpa using ih f fun x hx => h x (by simp [hx])

/-- A nonempty column can only be read from a present column name. -/
theorem hasColDF_of_getColDF_ne {df : DF} {c : String} (h : ¬ getColDF df c = []) :
    hasColDF df c = true := by
  unfold getColDF at h
  unfold hasColDF
  cases hf : df.find? fun x => x.1 = c with
  | none => exact absurd (by simp [hf]) h
  | some p => simp

/-- The column read under a present name is one of the frame's columns. -/
theorem getColDF_mem {df : DF} {c : String} (h : hasColDF df c = true) :
    ∃ p, p ∈ df ∧ p.1 = c ∧ getColDF df c = p.2 := by
  unfold hasColDF at h
  obtain ⟨p, hp⟩ := Option.isSome_iff_exists.mp h
  exact ⟨p, List.mem_of_find?_eq_some hp, by simpa using List.find?_some hp,
    by simp [getColDF, hp]⟩

/-- C5: the speed bins of `process_efficiency` are `bins` equal-width
intervals whose endpoints span the 5th to 95th percentile of the speed
column; every assigned bin index is one of those bins; and the aggregated
table after `dropna` has exactly one row per nonempty bin, in bin order,
whose entries are the arithmetic means of each aggregated column
(`speed_mps`, and `power_W`/`thrust_sum_N` when present) over the input rows
falling in that bin — bins whose aggregate contains a missing value (the
empty bins, on a fully present input) are dropped. -/
theorem C5_efficiency_binning (df : DF) (B n : ℕ) (hB : 1 ≤ B)
    (hlen : ∀ p ∈ df, p.2.length = n)
    (hall : ∀ p ∈ df, ∀ x ∈ p.2, x.isSome = true) :
    (effEdges df B).length = B + 1 ∧
    (effEdges df B).getD 0 0 = quantileQ (somes (getColDF df "speed_mps")) (1 / 20) ∧
    (effEdges df B).getD B 0 = quantileQ (somes (getColDF df "speed_mps")) (19 / 20) ∧
    (∀ j, j < B → (effEdges df B).getD (j + 1) 0 - (effEdges df B).getD j 0 =
      (quantileQ (somes (getColDF df "speed_mps")) (19 / 20) -
        quantileQ (somes (getColDF df "speed_mps")) (1 / 20)) / (B : ℚ)) ∧
    (∀ s j, binIndex (effEdges df B) s = some j → j < B) ∧
    dropnaRows (effAggTable df B) =
      ((List.range B).filter fun j => decide (effBinRows df B j ≠ [])).map fun j =>
        (effAggCols df).map fun c =>
          meanQ ((effBinRows df B j).map fun i => ((getColDF df c).getD i none).getD 0) := by
  have hcast : ((B + 1 - 1 : ℕ) : ℚ) = (B : ℚ) := by norm_num
  have hBQ : ((B : ℕ) : ℚ) ≠ 0 := Nat.cast_ne_zero.mpr (by omega)
  refine ⟨?_, ?_, ?_, ?_, ?_, ?_⟩
  · exact linspaceQ_length _ _ _
  · unfold effEdges
    rw [linspaceQ_getD _ _ (B + 1) 0 (by omega) (by omega)]
    simp
  · unfold effEdges
    rw [linspaceQ_getD _ _ (B + 1) B (by omega) (by omega), hcast]
    field_simp
  · intro j hj
    unfold effEdges
    rw [linspaceQ_getD _ _ (B + 1) (j + 1) (by omega) (by omega),
      linspaceQ_getD _ _ (B + 1) j (by omega) (by omega), hcast]
    push_cast
    field_simp
    ring
  · intro s j h
    have hmem := List.mem_of_find?_eq_some h
    have hlt := List.mem_range.mp hmem
    have hE : (effEdges df B).length = B + 1 := linspaceQ_length _ _ _
    omega
  · have key : ∀ j ∈ List.range B,
        seqRow ((effAggCols df).map fun c =>
            meanOpt ((effBinRows df B j).map fun i => (getColDF df c).getD i none)) =
          if decide (effBinRows df B j ≠ []) = true then
            some ((effAggCols df).map fun c =>
              meanQ ((effBinRows df B j).map fun i => ((getColDF df c).getD i none).getD 0))
          else none := by
      intro j _
      by_cases hje : effBinRows df B j = []
      · obtain ⟨tl, htl⟩ : ∃ tl, effAggCols df = "speed_mps" :: tl :=
          ⟨(if hasColDF df "power_W" = true then ["power_W"] else []) ++
            (if hasColDF df "thrust_sum_N" = true then ["thrust_sum_N"] else []),
            by simp [effAggCols]⟩
        rw [hje, htl]
        simp [seqRow, meanOpt, somes]
      · have hmem_bin : ∀ i ∈ effBinRows df B j,
            i < (getColDF df "speed_mps").length ∧
            ∃ s, (getColDF df "speed_mps").getD i none = some s := by
          intro i hi
          unfold effBinRows at hi
          obtain ⟨hr, hp⟩ := List.mem_filter.mp hi
          have hbind := of_decide_eq_true hp
          refine ⟨List.mem_range.mp hr, ?_⟩
          cases hcell : (getColDF df "speed_mps").getD i none with
          | none =>
            rw [hcell] at hbind
            simp at hbind
          | some s => exact ⟨s, rfl⟩
        have hcells : ∀ c ∈ effAggCols df, ∀ i ∈ effBinRows df B j,
            ((getColDF df c).getD i none).isSome = true := by
          intro c hc i hi
          obtain ⟨hilen, s, hs⟩ := hmem_bin i hi
          have hspne : ¬ getColDF df "speed_mps" = [] := by
            intro h0
            rw [h0] at hilen
            simp at hilen
          have hsp : hasColDF df "speed_mps" = true := hasColDF_of_getColDF_ne hspne
          obtain ⟨p, hpmem, hp1, hp2⟩ := getColDF_mem hsp
          have hin : i < n := by
            rw [hp2, hlen p hpmem] at hilen
            exact hilen
          have hc2 : c = "speed_mps" ∨ hasColDF df c = true := by
            simp only [effAggCols, List.mem_append, List.mem_singleton, List.mem_ite_nil_right,
              List.mem_cons, List.not_mem_nil, or_false] at hc
            rcases hc with (rfl | ⟨hpw, rfl⟩) | ⟨htn, rfl⟩
            · exact Or.inl rfl
            · exact Or.inr hpw
            · exact Or.inr htn
          rcases hc2 with rfl | hpres
          · rw [hs]
            rfl
          · obtain ⟨q, hqmem, hq1, hq2⟩ := getColDF_mem hpres
            have hilt : i < (getColDF df c).length := by
              rw [hq2, hlen q hqmem]
              exact hin
            have hmemcell : (getColDF df c).getD i none ∈ getColDF df c := by
              rw [List.getD_eq_getElem _ _ hilt]
              exact List.getElem_mem hilt
            rw [hq2] at hmemcell ⊢
            exact hall q hqmem _ hmemcell
        have hrow : ∀ c ∈ effAggCols df,
            meanOpt ((effBinRows df B j).map fun i => (getColDF df c).getD i none) =
              some (meanQ ((effBinRows df B j).map fun i =>
                ((getColDF df c).getD i none).getD 0)) := by
          intro c hc
          have h1 : ∀ x ∈ (effBinRows df B j).map fun i => (getColDF df c).getD i none,
              x.isSome = true := by
            intro x hx
            obtain ⟨i, hi, rfl⟩ := List.mem_map.mp hx
            exact hcells c hc i hi
          have h2 : ((effBinRows df B j).map fun i => (getColDF df c).getD i none) ≠ [] := by
            simpa using hje
          rw [meanOpt_of_all_isSome _ h1 h2, List.map_map]
          rfl
        have hallrow : ∀ x ∈ (effAggCols df).map fun c =>
            meanOpt ((effBinRows df B j).map fun i => (getColDF df c).getD i none),
            x.isSome = true := by
          intro x hx
          obtain ⟨c, hc, rfl⟩ := List.mem_map.mp hx
          rw [hrow c hc]
          rfl
        rw [seqRow_all_some _ hallrow, if_pos (decide_eq_true hje)]
        congr 1
        rw [List.map_map]
        refine List.map_congr_left fun c hc => ?_
        show (meanOpt ((effBinRows df B j).map fun i => (getColDF df c).getD i none)).getD 0 = _
        rw [hrow c hc]
        rfl
    show (effAggTable df B).filterMap seqRow = _
    unfold effAggTable
    rw [List.filterMap_map]
    exact filterMap_eq_filter_map _ _ (List.range B) _ fun j hj => key j hj

/-- Witness for C5 at a two-row frame with speeds `0, 20` and powers `1, 3`,
one bin. -/
theorem C5_efficiency_binning_witness :
    ((effEdges [("speed_mps", [some 0, some 20]), ("power_W", [some 1, some 3])] 1).length =
      1 + 1 ∧
    (effEdges [("speed_mps", [some 0, some 20]), ("power_W", [some 1, some 3])] 1).getD 0 0 =
      quantileQ (somes (getColDF
        [("speed_mps", [some 0, some 20]), ("power_W", [some 1, some 3])] "speed_mps"))
        (1 / 20)) ∧
    dropnaRows (effAggTable [("speed_mps", [some 0, some 20]), ("power_W", [some 1, some 3])] 1) =
      ((List.range 1).filter fun j => decide
        (effBinRows [("speed_mps", [some 0, some 20]), ("power_W", [some 1, some 3])] 1 j ≠ [])).map
        fun j => (effAggCols [("speed_mps", [some 0, some 20]), ("power_W", [some 1, some 3])]).map
          fun c => meanQ ((effBinRows
            [("speed_mps", [some 0, some 20]), ("power_W", [some 1, some 3])] 1 j).map
            fun i => ((getColDF [("speed_mps", [some 0, some 20]), ("power_W", [some 1, some 3])]
              c).getD i none).getD 0) := by
  obtain ⟨h1, h2, h3, h4, h5, h6⟩ :=
    C5_efficiency_binning [("speed_mps", [some 0, some 20]), ("power_W", [some 1, some 3])] 1 2
      (by decide) (by decide) (by decide)
  exact ⟨⟨h1, h2⟩, h6⟩

/-- C10 counterexample: on a two-row input whose speeds are all equal, with
`--bins 2`, both required columns are present yet the script still raises:
the three quantile-derived bin edges coincide, and `pd.cut` raises the
duplicate-edge `ValueError` (the two-edge exemption does not apply to three
edges), so "raises if and only if the columns are missing" fails in the
only-if direction. -/
theorem C10_counterexample :
    hasColDF [("speed_mps", [some 1, some 1]), ("power_W", [some 2, some 3])] "speed_mps" = true ∧
    hasColDF [("speed_mps", [some 1, some 1]), ("power_W", [some 2, some 3])] "power_W" = true ∧
    isErr (process_efficiency_run
      [("speed_mps", [some 1, some 1]), ("power_W", [some 2, some 3])] "x" 2) = true := by
  refine ⟨by decide, by decide, ?_⟩
  have hadd : add_power_process_efficiency
      [("speed_mps", [some 1, some 1]), ("power_W", [some 2, some 3])] =
      [("speed_mps", [some 1, some 1]), ("power_W", [some 2, some 3])] := by decide
  have hsomes : somes (getColDF
      [("speed_mps", [some (1 : ℚ), some 1]), ("power_W", [some 2, some 3])] "speed_mps") =
      [1, 1] := by decide
  have hq1 : quantileQ [1, 1] (1 / 20) = 1 := by
    norm_num [quantileQ, List.insertionSort, List.orderedInsert]
  have hq2 : quantileQ [1, 1] (19 / 20) = 1 := by
    norm_num [quantileQ, List.insertionSort, List.orderedInsert]
  have hedges : effEdges [("speed_mps", [some 1, some 1]), ("power_W", [some 2, some 3])] 2 =
      [1, 1, 1] := by
    unfold effEdges
    rw [hsomes, hq1, hq2]
    norm_num [linspaceQ, List.range_succ]
  have hcut : ¬ cutEdgesOk [1, 1, 1] := by
    rintro ⟨hc, hd | hl⟩
    · simp at hd
    · simp at hl
  simp +decide [process_efficiency_run, hadd, hedges, isErr, hcut]

/-- C10 amended: `process_efficiency` raises `ValueError` if and only if,
after the power-derivation step, the table lacks `speed_mps`, or lacks both
`power_W` and `thrust_sum_N`, or `pd.cut` rejects the bin edges computed
from the 5th/95th speed percentiles (an adjacent pair strictly decreases, or
a value repeats among more than two edges — e.g. constant speeds with
`--bins` at least 2; a duplicate pair of exactly two edges is accepted);
whenever it raises, no output CSV is written. -/
theorem C10_efficiency_valueerror (df0 : DF) (nm : String) (B : ℕ) :
    (isErr (process_efficiency_run df0 nm B) = true ↔
      (¬ hasColDF (add_power_process_efficiency df0) "speed_mps" = true ∨
        (¬ hasColDF (add_power_process_efficiency df0) "power_W" = true ∧
          ¬ hasColDF (add_power_process_efficiency df0) "thrust_sum_N" = true) ∨
        ¬ cutEdgesOk (effEdges (add_power_process_efficiency df0) B))) ∧
    (isErr (process_efficiency_run df0 nm B) = true →
      outputsOf (process_efficiency_run df0 nm B) = []) := by
  constructor
  · by_cases h1 : ¬ hasColDF (add_power_process_efficiency df0) "speed_mps" = true ∨
        (¬ hasColDF (add_power_process_efficiency df0) "power_W" = true ∧
          ¬ hasColDF (add_power_process_efficiency df0) "thrust_sum_N" = true)
    · have hrun : process_efficiency_run df0 nm B = Except.error
          "Input must contain speed_mps and either power_W or voltage_V,current_A; optionally thrust_sum_N" := by
        simp only [process_efficiency_run]
        rw [if_pos h1]
      rw [hrun]
      simp only [isErr, true_iff]
      rcases h1 with h1 | h1
      · exact Or.inl h1
      · exact Or.inr (Or.inl h1)
    · by_cases h2 : ¬ cutEdgesOk (effEdges (add_power_process_efficiency df0) B)
      · have hrun : process_efficiency_run df0 nm B = Except.error
            "bins must increase monotonically and bin edges must be unique" := by
          simp only [process_efficiency_run]
          rw [if_neg h1, if_pos h2]
        rw [hrun]
        simp only [isErr, true_iff]
        exact Or.inr (Or.inr h2)
      · have hrun : ∃ c, process_efficiency_run df0 nm B = Except.ok [c] := by
          simp only [process_efficiency_run]
          rw [if_neg h1, if_neg h2]
          exact ⟨_, rfl⟩
        obtain ⟨c, hrun⟩ := hrun
        rw [hrun]
        simp only [isErr, Bool.false_eq_true, false_iff]
        push_neg at h1
        intro hcon
        rcases hcon with ha | ⟨hb, hc⟩ | hd
        · exact ha h1.1
        · exact hc (h1.2 hb)
        · exact hd (not_not.mp h2)
  · intro herr
    cases hrun : process_efficiency_run df0 nm B with
    | error e => simp [outputsOf]
    | ok outs =>
      rw [hrun] at herr
      simp [isErr] at herr

/-- Witness for C10 at a one-row frame with only `speed_mps`: the required
power/thrust columns are missing, so the run raises and writes nothing. -/
theorem C10_efficiency_valueerror_witness :
    (isErr (process_efficiency_run [("speed_mps", [some 1])] "x" 12) = true ↔
      (¬ hasColDF (add_power_process_efficiency [("speed_mps", [some 1])]) "speed_mps" = true ∨
        (¬ hasColDF (add_power_process_efficiency [("speed_mps", [some 1])]) "power_W" = true ∧
          ¬ hasColDF (add_power_process_efficiency [("speed_mps", [some 1])]) "thrust_sum_N" = true) ∨
        ¬ cutEdgesOk (effEdges (add_power_process_efficiency [("speed_mps", [some 1])]) 12))) ∧
    (isErr (process_efficiency_run [("speed_mps", [some 1])] "x" 12) = true →
      outputsOf (process_efficiency_run [("speed_mps", [some 1])] "x" 12) = []) := by
  have h := C10_efficiency_valueerror [("speed_mps", [some 1])] "x" 12
  exact ⟨h.1, h.2⟩

/-- C6 counterexample: on a readable one-column input that has none of the
recognised columns, `process_efficiency` raises `ValueError` and writes no
output CSV at all, so "every run on a readable input CSV writes one or more
output CSVs" fails. -/
theorem C6_counterexample :
    isErr (process_efficiency_run [("foo", [some 1])] "x" 12) = true ∧
    outputsOf (process_efficiency_run [("foo", [some 1])] "x" 12) = [] := by
  constructor
  · decide
  · decide

/-- C6 amended: every run of each of the three scripts that completes
without a raised error or a nonzero exit writes at least one output CSV; a
run may instead raise and write nothing (`process_efficiency` on missing
required columns or degenerate bin edges, `process_thrust_map` exiting when
no recognised column is present, `convert_thrust_lookup` when the raveled
grid size disagrees with the axis lengths, which aborts before the first
write). -/
theorem C6_script_outputs (voltages forces : List ℚ) (Z : List (List ℚ))
    (a : ConvertArgs) (df1 : DF) (nm1 : String) (B : ℕ) (df2 : DF) (nm2 : String) :
    ((convert_thrust_lookup_run voltages forces Z a).2 = none →
      1 ≤ (convert_thrust_lookup_run voltages forces Z a).1.length) ∧
    (isErr (process_efficiency_run df1 nm1 B) = false →
      1 ≤ (outputsOf (process_efficiency_run df1 nm1 B)).length) ∧
    (isErr (process_thrust_map_run df2 nm2) = false →
      1 ≤ (outputsOf (process_thrust_map_run df2 nm2)).length) := by
  refine ⟨?_, ?_, ?_⟩
  · intro hok
    unfold convert_thrust_lookup_run at hok ⊢
    cases hmg : melt_grid voltages forces Z with
    | error e =>
      rw [hmg] at hok
      simp at hok
    | ok long =>
      rw [hmg] at hok
      by_cases hemp : voltages.isEmpty
      · simp [hemp] at hok
      · simp [hemp]
  · intro hok
    cases hrun : process_efficiency_run df1 nm1 B with
    | error e =>
      rw [hrun] at hok
      simp [isErr] at hok
    | ok outs =>
      simp only [process_efficiency_run] at hrun
      split at hrun
      · simp at hrun
      · split at hrun
        · simp at hrun
        · have hx := Except.ok.inj hrun
          simp only [outputsOf]
          rw [← hx]
          simp
  · intro hok
    cases hrun : process_thrust_map_run df2 nm2 with
    | error e =>
      rw [hrun] at hok
      simp [isErr] at hok
    | ok outs =>
      simp only [process_thrust_map_run] at hrun
      split at hrun
      · simp at hrun
      next houts =>
        have hx := Except.ok.inj hrun
        simp only [outputsOf]
        rw [← hx]
        have hne2 := houts
        rw [List.isEmpty_eq_true] at hne2
        exact List.length_pos.mpr hne2

/-- Witness for C6: a successful converter run on a 1 × 1 grid, a successful
efficiency run (speeds `0, 20`, powers `1, 1`, one bin), and a successful
thrust-map run (one throttle/thrust row). -/
theorem C6_script_outputs_witness :
    1 ≤ (convert_thrust_lookup_run [1] [2] [[3]] ⟨"w", none, none, none⟩).1.length ∧
    1 ≤ (outputsOf (process_efficiency_run
      [("speed_mps", [some 0, some 20]), ("power_W", [some 1, some 1])] "w" 1)).length ∧
    1 ≤ (outputsOf (process_thrust_map_run
      [("throttle", [some 1]), ("thrust_N", [some 2])] "w")).length := by
  have h := C6_script_outputs [1] [2] [[3]] ⟨"w", none, none, none⟩
    [("speed_mps", [some 0, some 20]), ("power_W", [some 1, some 1])] "w" 1
    [("throttle", [some 1]), ("thrust_N", [some 2])] "w"
  refine ⟨h.1 (by decide), h.2.1 ?_, h.2.2 (by decide)⟩
  have hadd : add_power_process_efficiency
      [("speed_mps", [some 0, some 20]), ("power_W", [some 1, some 1])] =
      [("speed_mps", [some 0, some 20]), ("power_W", [some 1, some 1])] := by decide
  have hsomes : somes (getColDF
      [("speed_mps", [some (0 : ℚ), some 20]), ("power_W", [some 1, some 1])] "speed_mps") =
      [0, 20] := by decide
  have hq1 : quantileQ [0, 20] (1 / 20) = 1 := by
    norm_num [quantileQ, List.insertionSort, List.orderedInsert]
  have hq2 : quantileQ [0, 20] (19 / 20) = 19 := by
    norm_num [quantileQ, List.insertionSort, List.orderedInsert]
  have hedges : effEdges [("speed_mps", [some 0, some 20]), ("power_W", [some 1, some 1])] 1 =
      [1, 19] := by
    unfold effEdges
    rw [hsomes, hq1, hq2]
    norm_num [linspaceQ, List.range_succ]
  have hcut : cutEdgesOk [1, 19] := ⟨List.chain'_pair.mpr (by norm_num), Or.inr rfl⟩
  simp +decide [process_efficiency_run, hadd, hedges, isErr, hcut]

/-- C7: each script is a deterministic mapping from the parsed input table
and the command-line arguments to its output CSVs: two runs on equal inputs
and equal arguments produce equal outputs — the same file contents with the
same header names, the same column order, and the same rows in the same
order (output equality is equality of the `CSV` structures). -/
theorem C7_deterministic (v1 v2 f1 f2 : List ℚ) (Z1 Z2 : List (List ℚ))
    (a1 a2 : ConvertArgs) (d1 d2 : DF) (n1 n2 : String) (B1 B2 : ℕ)
    (e1 e2 : DF) (m1 m2 : String) :
    (v1 = v2 → f1 = f2 → Z1 = Z2 → a1 = a2 →
      convert_thrust_lookup_run v1 f1 Z1 a1 = convert_thrust_lookup_run v2 f2 Z2 a2) ∧
    (d1 = d2 → n1 = n2 → B1 = B2 →
      process_efficiency_run d1 n1 B1 = process_efficiency_run d2 n2 B2) ∧
    (e1 = e2 → m1 = m2 →
      process_thrust_map_run e1 m1 = process_thrust_map_run e2 m2) := by
  refine ⟨?_, ?_, ?_⟩
  · rintro rfl rfl rfl rfl
    rfl
  · rintro rfl rfl rfl
    rfl
  · rintro rfl rfl
    rfl

/-- Witness for C7 at concrete equal inputs for all three scripts. -/
theorem C7_deterministic_witness :
    convert_thrust_lookup_run [1] [2] [[3]] ⟨"w", none, none, none⟩ =
      convert_thrust_lookup_run [1] [2] [[3]] ⟨"w", none, none, none⟩ ∧
    process_efficiency_run [("speed_mps", [some 1])] "w" 12 =
      process_efficiency_run [("speed_mps", [some 1])] "w" 12 ∧
    process_thrust_map_run [("thrust_N", [some 2])] "w" =
      process_thrust_map_run [("thrust_N", [some 2])] "w" := by
  have h := C7_deterministic [1] [1] [2] [2] [[3]] [[3]]
    ⟨"w", none, none, none⟩ ⟨"w", none, none, none⟩
    [("speed_mps", [some 1])] [("speed_mps", [some 1])] "w" "w" 12 12
    [("thrust_N", [some 2])] [("thrust_N", [some 2])] "w" "w"
  exact ⟨h.1 rfl rfl rfl rfl, h.2.1 rfl rfl rfl, h.2.2 rfl rfl⟩
